import Mathlib

/-!
Shallow embedding of the gasless-swap orchestration script (src/index.ts):
the signature codec (`splitSignature` / `padSignature`), the approval /
signing / submission flow of `main` (steps 4-8), and the status-polling
loop, together with theorems settling the specification claims.

Strings model the JavaScript strings of the source; machine arithmetic on
token amounts is modelled with `Nat` (JS `BigInt` is arbitrary precision,
and `v` values are small non-negative integers here).
-/

set_option maxRecDepth 8192

deriving instance DecidableEq for Except

namespace GaslessSwap

/-! ## Hex primitives (models of the viem / noble-curves helpers used) -/

/-- Value of a single hex digit, accepting both cases, as both `BigInt`
hex literals and noble's `hexToBytes` do. -/
def hexCharVal? (c : Char) : Option Nat :=
  let n := c.toNat
  if 48 ≤ n ∧ n ≤ 57 then some (n - 48)
  else if 97 ≤ n ∧ n ≤ 102 then some (n - 87)
  else if 65 ≤ n ∧ n ≤ 70 then some (n - 55)
  else none

def isHexChar (c : Char) : Bool := (hexCharVal? c).isSome

def hexCharValD (c : Char) : Nat := (hexCharVal? c).getD 0

/-- Big-endian value of a list of hex digits. -/
def hexListVal (cs : List Char) : Nat :=
  cs.foldl (fun a c => 16 * a + hexCharValD c) 0

/-- Model of viem's `hexToNumber('0x' + body)`, i.e. `Number(BigInt(...))`:
`BigInt("0x")` throws (empty body fails) and any non-hex character throws.
The numeric value is kept as an exact `Nat`; this is bit-exact for bodies
whose value is below `2^53` (every body relevant to the claims is at most
two hex characters). It does not reproduce the double rounding of
`Number(...)` for longer bodies, nor the `RangeError` that the enclosing
`BigInt(v)` raises when the value overflows the JS `Number` range, so
acceptance of `splitSignature` is only characterized below on inputs
whose tail stays in the exact window. -/
def hexToNumberBody? (body : List Char) : Option Nat :=
  if body = [] then none
  else if body.all isHexChar then some (hexListVal body) else none

/-- Hex digits of `n`, most significant first, lowercase, no leading zeros
(`[]` for `0`); fuel-based so that it evaluates by iota reduction. -/
def natHexDigitsAux : Nat → Nat → List Char
  | 0, _ => []
  | fuel + 1, n =>
    if n = 0 then []
    else natHexDigitsAux fuel (n / 16) ++ [Nat.digitChar (n % 16)]

def natHexDigits (n : Nat) : List Char := natHexDigitsAux n n

/-- Digits of `n.toString(16)` in JS: minimal, lowercase, `"0"` for zero. -/
def natHexRepr (n : Nat) : List Char :=
  if n = 0 then ['0'] else natHexDigits n

/-- Model of viem's `toHex` on a bigint: `"0x" + value.toString(16)`. -/
def toHexStr (n : Nat) : String :=
  String.mk ('0' :: 'x' :: natHexRepr n)

/-- Model of JS `String.prototype.padStart(len, "0")`: left-pad with zeros,
never truncating an already long enough string. -/
def padStartZeros (cs : List Char) (len : Nat) : List Char :=
  List.replicate (len - cs.length) '0' ++ cs

/-- Model of JS `String.prototype.slice(start, stop)` for in-range args. -/
def jsSlice (s : String) (start stop : Nat) : String :=
  String.mk ((s.data.drop start).take (stop - start))

/-- Model of JS `String.prototype.slice(start)`. -/
def jsSliceFrom (s : String) (start : Nat) : String :=
  String.mk (s.data.drop start)

/-! ## The signature codec (src/index.ts lines 219-271) -/

/-- `SignatureExtended` from src/index.ts: the object literal actually
returned by `splitSignature` carries `v`, `r`, `s`, `recoveryParam`. -/
structure SignatureExtended where
  v : Nat
  r : String
  s : String
  recoveryParam : Nat
deriving DecidableEq, Repr

/-- The order of the secp256k1 curve (noble-curves `CURVE.n`). -/
def secp256k1N : Nat :=
  0xFFFFFFFFFFFFFFFFFFFFFFFFFFFFFFFEBAAEDCE6AF48A03BBFD25E8CD0364141

/-- Model of noble-curves `secp256k1.Signature.fromCompact` on a hex string:
requires exactly 128 hex characters, splits them into `r` (first 64) and
`s` (last 64), and the `Signature` constructor validates
`1 <= r < n` and `1 <= s < n`. -/
def fromCompact (hex : String) : Except String (Nat × Nat) :=
  let cs := hex.data
  if cs.length ≠ 128 then Except.error "compactSignature: expected 64 bytes"
  else if ¬ cs.all isHexChar = true then Except.error "hex: invalid characters"
  else
    let r := hexListVal (cs.take 64)
    let s := hexListVal (cs.drop 64)
    if r = 0 ∨ secp256k1N ≤ r then Except.error "invalid r"
    else if s = 0 ∨ secp256k1N ≤ s then Except.error "invalid s"
    else Except.ok (r, s)

/-- JS `\w` character class: ASCII letters, digits and underscore. -/
def isWordChar (c : Char) : Bool :=
  let n := c.toNat
  (48 ≤ n && n ≤ 57) || (65 ≤ n && n ≤ 90) || (97 ≤ n && n ≤ 122) || n == 95

/-- Model of matching `/^0(x|X)(?<hex>\w+)$/` and extracting the `hex`
group (src/index.ts line 253). -/
def hexExtractList? (cs : List Char) : Option (List Char) :=
  match cs with
  | c0 :: c1 :: rest =>
    if c0 == '0' && (c1 == 'x' || c1 == 'X') && !rest.isEmpty
        && rest.all isWordChar
    then some rest else none
  | _ => none

/-- One component of `padSignature` (src/index.ts lines 254-268): when the
string matches `0x<word+>` and the extracted part is not 64 characters
long, rebuild it as `` `0x${hex.padStart(64, "0")}` ``; otherwise leave
the field untouched. -/
def padComponent (str : String) : String :=
  match hexExtractList? str.data with
  | some h =>
    if h.length ≠ 64 then String.mk ('0' :: 'x' :: padStartZeros h 64) else str
  | none => str

/-- `padSignature` (src/index.ts lines 248-270): copy the signature and
re-pad the `r` and `s` fields. -/
def padSignature (sig : SignatureExtended) : SignatureExtended :=
  { sig with r := padComponent sig.r, s := padComponent sig.s }

/-- `splitSignature` (src/index.ts lines 231-241): decompose
`0x`-prefixed compact 65-byte signature hex into `(r, s, v)` via
`fromCompact(hex.slice(2, 130))` and `hexToNumber('0x' + hex.slice(130))`,
set `recoveryParam = 1 - (v % 2)`, and run `padSignature`. Exceptions are
modelled with `Except.error`. -/
def splitSignature (signatureHex : String) : Except String SignatureExtended :=
  match fromCompact (jsSlice signatureHex 2 130) with
  | Except.error e => Except.error e
  | Except.ok (r, s) =>
    match hexToNumberBody? (jsSliceFrom signatureHex 130).data with
    | none => Except.error "Cannot convert 0x to a BigInt"
    | some v =>
      Except.ok (padSignature
        { v := v, r := toHexStr r, s := toHexStr s, recoveryParam := 1 - v % 2 })

/-! ## The status-polling loop (src/index.ts lines 473-499) -/

/-- ASCII lowering, modelling `String.prototype.toLowerCase` on the ASCII
status strings the relay returns. -/
def toLowerAscii (s : String) : String := String.mk (s.data.map Char.toLower)

/-- The loop's test `status.status.toLowerCase() === "confirmed"`. -/
def isConfirmedStatus (s : String) : Bool := toLowerAscii s == "confirmed"

/-- One observable step of the polling loop: the 2000 ms `setTimeout` delay
or the status fetch of a given attempt (0-based index). -/
inductive PollEvent where
  | delay (ms : Nat)
  | fetch (idx : Nat)
deriving DecidableEq, Repr

/-- Result of the polling loop: the `confirmed` flag and `attempts` counter
at exit, plus the ordered trace of delays and fetches performed. -/
structure PollResult where
  confirmed : Bool
  attempts : Nat
  events : List PollEvent
deriving DecidableEq, Repr

/-- The `while (!confirmed && attempts < maxAttempts)` loop, driven by the
remaining fuel `maxAttempts - attempts`; `statuses i` is the status string
that the `(i+1)`-th fetch returns (transport assumed to succeed). Each
iteration increments `attempts`, waits 2000 ms, then fetches. -/
def pollFrom (statuses : Nat → String) : Nat → Nat → PollResult
  | 0, attempts => ⟨false, attempts, []⟩
  | fuel + 1, attempts =>
    if isConfirmedStatus (statuses attempts) then
      ⟨true, attempts + 1, [PollEvent.delay 2000, PollEvent.fetch attempts]⟩
    else
      let rest := pollFrom statuses fuel (attempts + 1)
      ⟨rest.confirmed, rest.attempts,
        PollEvent.delay 2000 :: PollEvent.fetch attempts :: rest.events⟩

/-- The polling loop as entered by `main`: `attempts = 0`,
`maxAttempts = 60`. -/
def pollLoop (statuses : Nat → String) : PollResult := pollFrom statuses 60 0

/-- The trace of `m` full loop iterations starting at attempt index `a`:
delay, fetch `a`, delay, fetch `a+1`, ... -/
def pairTraceFrom (a m : Nat) : List PollEvent :=
  match m with
  | 0 => []
  | m + 1 => PollEvent.delay 2000 :: PollEvent.fetch a :: pairTraceFrom (a + 1) m

def isDelayEv : PollEvent → Bool
  | PollEvent.delay _ => true
  | PollEvent.fetch _ => false

def isFetchEv : PollEvent → Bool
  | PollEvent.delay _ => false
  | PollEvent.fetch _ => true

/-! ## The orchestration flow of `main`, steps 4-8 (src/index.ts 362-499) -/

/-- `quote.issues.allowance` entry. -/
structure AllowanceIssue where
  actual : String
  spender : String
deriving DecidableEq, Repr

/-- `quote.issues` diagnostics (fields the script never reads are kept as
opaque strings / flags, as in the interface declaration). -/
structure QuoteIssues where
  allowance : Option AllowanceIssue := none
  balance : Option String := none
  simulation_incomplete : Option Bool := none
  invalid_sources_passed : Option (List String) := none
deriving DecidableEq, Repr

/-- An EIP-712 payload descriptor `{type, hash, eip712}` as carried by
`quote.approval` and `quote.trade`; the `eip712` body is opaque to the
script and modelled as a string. -/
structure Eip712Payload where
  type : String
  hash : String
  eip712 : String
deriving DecidableEq, Repr

/-- `GaslessQuoteResult` from src/index.ts (fields the flow reads, plus the
declared metadata fields kept as plain values). -/
structure GaslessQuoteResult where
  allowance_target : String
  approval : Option Eip712Payload
  block_number : Nat
  buy_quantity : String
  buy_token : String
  liquidity_available : Bool
  min_buy_quantity : String
  sell_quantity : String
  sell_token : String
  target : String
  trade : Eip712Payload
  zid : String
  issues : Option QuoteIssues
deriving DecidableEq, Repr

/-- The two signer identities of the script: the raw externally-owned
account (`walletClient` with `account`) and the Kernel smart account
(`smartAccountClient` with `smartAccount`). -/
inductive SignerId where
  | eoa
  | smartAccount
deriving DecidableEq, Repr

/-- Observable actions of `main` steps 4-8, in execution order. -/
inductive RunEvent where
  | sendApproveUserOp (tokenAddr spender : String) (amount : Nat)
  | waitForReceipt
  | signTypedData (signer : SignerId) (payload : Eip712Payload)
  | submitTrade (withApproval : Bool)
  | pollDelay (ms : Nat)
  | pollFetch (idx : Nat)
deriving DecidableEq, Repr

/-- Terminal outcome of the polling phase. -/
inductive RunOutcome where
  | confirmed
  | unconfirmed
deriving DecidableEq, Repr

/-- External responses consumed by the run: the raw signature strings the
two signers return and the status strings of successive polls (network
transport assumed to succeed, as the claims concern the flow's own logic). -/
structure RunEnv where
  eoaSig : String
  smartSig : String
  statuses : Nat → String

/-- The `SELL_TOKEN` configuration constant (src/index.ts line 41). -/
def SELL_TOKEN : String := "0x833589fCD6eDb6E08f4c7C32D4f71b54bdA02913"

/-- Model of JS `BigInt(str)` on the decimal quantity strings the relay
returns: a string of decimal digits converts (the empty string gives 0),
anything else throws. -/
def jsBigIntDec? (str : String) : Option Nat :=
  if str.data.all Char.isDigit
  then some (str.data.foldl (fun a c => 10 * a + (c.toNat - '0'.toNat)) 0)
  else none

/-- Step 4 (src/index.ts 362-390): `if (quote.issues?.allowance &&
!quote.approval)` send one `approve(spender, BigInt(sell_quantity))` user
operation to `SELL_TOKEN` through the smart account and wait for its
receipt; otherwise do nothing. A non-numeric `sell_quantity` makes
`BigInt` throw before any call is issued. -/
def step4 (q : GaslessQuoteResult) : Except String (List RunEvent) :=
  match q.issues.bind QuoteIssues.allowance, q.approval with
  | some al, none =>
    match jsBigIntDec? q.sell_quantity with
    | some amt =>
      Except.ok [RunEvent.sendApproveUserOp SELL_TOKEN al.spender amt,
                 RunEvent.waitForReceipt]
    | none => Except.error "Cannot convert sell_quantity to a BigInt"
  | _, _ => Except.ok []

/-- Step 5 (src/index.ts 394-410): `if (quote.approval)` sign the approval
permit payload with the raw account through `walletClient`. -/
def step5 (q : GaslessQuoteResult) : List RunEvent :=
  match q.approval with
  | some ap => [RunEvent.signTypedData SignerId.eoa ap]
  | none => []

/-- Step 7's approval branch (src/index.ts 431-444): `if (quote.approval
&& approvalSig)` split the permit signature; `approvalSig` is the string
returned in step 5 (set only when `approval` is present, truthy when
non-empty). -/
def splitApprovalSig (q : GaslessQuoteResult) (env : RunEnv) :
    Except String (Option SignatureExtended) :=
  match q.approval with
  | some _ =>
    if env.eoaSig ≠ "" then (splitSignature env.eoaSig).map some
    else Except.ok none
  | none => Except.ok none

def liftPoll : PollEvent → RunEvent
  | PollEvent.delay m => RunEvent.pollDelay m
  | PollEvent.fetch i => RunEvent.pollFetch i

/-- Steps 4-8 of `main` given a received quote: the ordered trace of
observable actions, and either the thrown error or the terminal outcome.
Events already performed before a throw are kept in the trace. -/
def runFromQuote (q : GaslessQuoteResult) (env : RunEnv) :
    List RunEvent × Except String RunOutcome :=
  match step4 q with
  | Except.error e => ([], Except.error e)
  | Except.ok ev4 =>
    let ev5 := step5 q
    let ev6 := [RunEvent.signTypedData SignerId.smartAccount q.trade]
    match splitApprovalSig q env with
    | Except.error e => (ev4 ++ ev5 ++ ev6, Except.error e)
    | Except.ok approvalData =>
      match splitSignature env.smartSig with
      | Except.error e => (ev4 ++ ev5 ++ ev6, Except.error e)
      | Except.ok _ =>
        let pr := pollLoop env.statuses
        (ev4 ++ ev5 ++ ev6 ++
          RunEvent.submitTrade approvalData.isSome :: pr.events.map liftPoll,
         Except.ok (if pr.confirmed then RunOutcome.confirmed
                    else RunOutcome.unconfirmed))

/-- Acceptance condition of the codec, written out independently for the
corrected C3 claim and used below only on inputs of exactly 65 bytes
(132 characters), where the model is bit-exact: at least 129 hex
characters after the first two, the 128 `r‖s` characters and everything
from position 130 on are hex digits (position 130 onward being
non-empty), and the decoded `r` and `s` lie in `[1, n-1]`. On a 65-byte
input the tail is two hex characters, so the JS `Number`/`BigInt`
round-trip on `v` is the identity and no overflow is possible. -/
def acceptsSplitSpec (inp : String) : Bool :=
  let cs := inp.data
  decide (131 ≤ cs.length) &&
  ((cs.drop 2).take 128).all isHexChar &&
  decide (0 < hexListVal ((cs.drop 2).take 64)) &&
  decide (hexListVal ((cs.drop 2).take 64) < secp256k1N) &&
  decide (0 < hexListVal (((cs.drop 2).take 128).drop 64)) &&
  decide (hexListVal (((cs.drop 2).take 128).drop 64) < secp256k1N) &&
  (cs.drop 130).all isHexChar

def isApproveEv : RunEvent → Bool
  | RunEvent.sendApproveUserOp _ _ _ => true
  | _ => false

def isSignEv : RunEvent → Bool
  | RunEvent.signTypedData _ _ => true
  | _ => false

/-! ## Concrete inputs used to instantiate the theorems -/

/-- A valid 65-byte raw signature (hex form) with `r = s = 1`, so both
components have 63 leading zero hex digits, and `v = 0x1b = 27`. -/
def sig65In : String :=
  String.mk ('0' :: 'x' ::
    ((List.replicate 63 '0' ++ ['1']) ++ (List.replicate 63 '0' ++ ['1'])
      ++ ['1', 'b']))

/-- The normalized signature `splitSignature sig65In` produces. -/
def sig65Out : SignatureExtended :=
  { v := 27,
    r := String.mk ('0' :: 'x' :: (List.replicate 63 '0' ++ ['1'])),
    s := String.mk ('0' :: 'x' :: (List.replicate 63 '0' ++ ['1'])),
    recoveryParam := 0 }

/-- A 66-byte input: the same `r`, `s`, followed by two extra bytes
`0x1b1b`; 134 characters in all. -/
def sig66In : String :=
  String.mk ('0' :: 'x' ::
    ((List.replicate 63 '0' ++ ['1']) ++ (List.replicate 63 '0' ++ ['1'])
      ++ ['1', 'b', '1', 'b']))

/-- A 2-byte input, far shorter than 65 bytes. -/
def shortSigIn : String := "0x1234"

def tradePayload0 : Eip712Payload :=
  { type := "settler_metatransaction", hash := "0xtradehash",
    eip712 := "trade-typed-data" }

def approvalPayload0 : Eip712Payload :=
  { type := "permit", hash := "0xapprovalhash", eip712 := "permit-typed-data" }

/-- A quote with no approval descriptor and no issues. -/
def baseQuote : GaslessQuoteResult :=
  { allowance_target := "0xallowancetarget", approval := none,
    block_number := 0, buy_quantity := "999500", buy_token := "0xbuytoken",
    liquidity_available := true, min_buy_quantity := "999000",
    sell_quantity := "1000000", sell_token := SELL_TOKEN,
    target := "0xtarget", trade := tradePayload0, zid := "zid0",
    issues := none }

/-- An environment whose signers return `sig65In` and whose first status
poll already reports `"confirmed"`. -/
def env0 : RunEnv :=
  { eoaSig := sig65In, smartSig := sig65In, statuses := fun _ => "confirmed" }

def issuesAmple : QuoteIssues :=
  { allowance := some { actual := "2000000", spender := "0xSPENDER" } }

def issuesEmptyAllowance : QuoteIssues :=
  { allowance := some { actual := "0", spender := "0xSPENDER" } }

/-- Quote for the C2 counterexample: approval absent, allowance issue
present with an actual allowance (2000000) that already covers the sell
quantity (1000000). -/
def quoteAllowanceAmple : GaslessQuoteResult :=
  { baseQuote with issues := some issuesAmple }

/-- Quote of the C8 end-to-end scenario: `approval: null`,
`issues.allowance: {actual: "0", spender: "0xSPENDER"}`,
`sell_quantity: "1000000"`. -/
def quoteNeedsApproval : GaslessQuoteResult :=
  { baseQuote with issues := some issuesEmptyAllowance }

/-- The C8 quote with `liquidity_available` turned off (C4). -/
def quoteNoLiquidity : GaslessQuoteResult :=
  { quoteNeedsApproval with liquidity_available := false }

/-- A quote carrying a permit approval descriptor (C6). -/
def quoteWithPermit : GaslessQuoteResult :=
  { baseQuote with approval := some approvalPayload0 }

/-- Status oracle whose third fetch reports `"Confirmed"` (mixed case). -/
def statusesConfAt2 : Nat → String :=
  fun i => if i = 2 then "Confirmed" else "pending"

/-- Status oracle that never confirms. -/
def statusesNever : Nat → String := fun _ => "pending"

/-- A signature object whose `r` and `s` are already 64 hex characters. -/
def paddedSig0 : SignatureExtended :=
  { v := 27,
    r := String.mk ('0' :: 'x' :: (List.replicate 63 '0' ++ ['1'])),
    s := String.mk ('0' :: 'x' :: (List.replicate 62 '0' ++ ['2', 'a'])),
    recoveryParam := 0 }

/-! ## Lemmas about the hex primitives -/

theorem hexListVal_foldl_acc (cs : List Char) (a : Nat) :
    cs.foldl (fun a c => 16 * a + hexCharValD c) a
      = a * 16 ^ cs.length + hexListVal cs := by
  induction cs generalizing a with
  | nil => simp [hexListVal]
  | cons c cs ih =>
    simp only [List.foldl_cons, List.length_cons, hexListVal] at *
    rw [ih (16 * a + hexCharValD c), ih (16 * 0 + hexCharValD c), pow_succ]
    ring

theorem hexListVal_append (xs ys : List Char) :
    hexListVal (xs ++ ys) = hexListVal xs * 16 ^ ys.length + hexListVal ys := by
  simp only [hexListVal, List.foldl_append]
  rw [hexListVal_foldl_acc]
  rfl

theorem hexListVal_replicate_zero (m : Nat) :
    hexListVal (List.replicate m '0') = 0 := by
  induction m with
  | zero => rfl
  | succ k ih =>
    have : hexCharValD '0' = 0 := by decide
    simp only [List.replicate_succ, hexListVal, List.foldl_cons] at *
    simpa [this] using ih

theorem hexListVal_padStartZeros (cs : List Char) (len : Nat) :
    hexListVal (padStartZeros cs len) = hexListVal cs := by
  unfold padStartZeros
  rw [hexListVal_append, hexListVal_replicate_zero]
  simp

theorem padStartZeros_length (cs : List Char) (len : Nat)
    (h : cs.length ≤ len) : (padStartZeros cs len).length = len := by
  simp [padStartZeros]
  omega

theorem padStartZeros_all {p : Char → Bool} (hp : p '0' = true)
    (cs : List Char) (len : Nat) (h : cs.all p = true) :
    (padStartZeros cs len).all p = true := by
  simp only [padStartZeros, List.all_append, Bool.and_eq_true]
  refine ⟨?_, h⟩
  simp only [List.all_eq_true]
  intro c hc
  rw [List.eq_of_mem_replicate hc]
  exact hp

theorem padStartZeros_ne_nil (cs : List Char) (len : Nat) (h : cs ≠ []) :
    padStartZeros cs len ≠ [] := by
  simp [padStartZeros, h]

theorem hexCharValD_digitChar : ∀ k, k < 16 →
    hexCharValD (Nat.digitChar k) = k := by decide

theorem isHexChar_digitChar : ∀ k, k < 16 →
    isHexChar (Nat.digitChar k) = true := by decide

theorem natHexDigitsAux_val : ∀ fuel n, n ≤ fuel →
    hexListVal (natHexDigitsAux fuel n) = n := by
  intro fuel
  induction fuel with
  | zero =>
    intro n h
    have : n = 0 := by omega
    subst this
    rfl
  | succ f ih =>
    intro n h
    by_cases h0 : n = 0
    · subst h0; rfl
    · have hdiv : n / 16 < n := Nat.div_lt_self (Nat.pos_of_ne_zero h0) (by norm_num)
      simp only [natHexDigitsAux, if_neg h0]
      rw [hexListVal_append, ih (n / 16) (by omega)]
      have hval : hexListVal [Nat.digitChar (n % 16)] = n % 16 := by
        have h16 : n % 16 < 16 := Nat.mod_lt _ (by norm_num)
        simp [hexListVal, hexCharValD_digitChar _ h16]
      rw [hval]
      simp only [List.length_singleton, pow_one]
      omega

theorem natHexDigitsAux_length : ∀ fuel n k, n < 16 ^ k →
    (natHexDigitsAux fuel n).length ≤ k := by
  intro fuel
  induction fuel with
  | zero => intro n k _; simp [natHexDigitsAux]
  | succ f ih =>
    intro n k hk
    by_cases h0 : n = 0
    · simp [natHexDigitsAux, h0]
    · cases k with
      | zero => simp at hk; omega
      | succ k =>
        simp only [natHexDigitsAux, if_neg h0, List.length_append,
          List.length_singleton]
        have : n / 16 < 16 ^ k := by
          rw [Nat.div_lt_iff_lt_mul (by norm_num : 0 < 16)]
          calc n < 16 ^ (k + 1) := hk
            _ = 16 ^ k * 16 := by rw [pow_succ]
        have := ih (n / 16) k this
        omega

theorem natHexDigitsAux_all_hex : ∀ fuel n,
    (natHexDigitsAux fuel n).all isHexChar = true := by
  intro fuel
  induction fuel with
  | zero => intro n; rfl
  | succ f ih =>
    intro n
    by_cases h0 : n = 0
    · simp [natHexDigitsAux, h0]
    · have h16 : n % 16 < 16 := Nat.mod_lt _ (by norm_num)
      simp [natHexDigitsAux, h0, List.all_append, ih (n / 16),
        isHexChar_digitChar _ h16]

theorem natHexRepr_val (n : Nat) : hexListVal (natHexRepr n) = n := by
  unfold natHexRepr
  by_cases h0 : n = 0
  · subst h0; rfl
  · simp only [if_neg h0]
    exact natHexDigitsAux_val n n le_rfl

theorem natHexRepr_length (n k : Nat) (h : n < 16 ^ k) (hk : 1 ≤ k) :
    (natHexRepr n).length ≤ k := by
  unfold natHexRepr
  by_cases h0 : n = 0
  · simp [h0]; omega
  · simp only [if_neg h0]
    exact natHexDigitsAux_length n n k h

theorem natHexRepr_all_hex (n : Nat) : (natHexRepr n).all isHexChar = true := by
  unfold natHexRepr
  by_cases h0 : n = 0
  · simp [h0]; decide
  · simp only [if_neg h0]
    exact natHexDigitsAux_all_hex n n

theorem natHexDigitsAux_ne_nil (fuel n : Nat) (h0 : n ≠ 0) (hf : 0 < fuel) :
    natHexDigitsAux fuel n ≠ [] := by
  cases fuel with
  | zero => omega
  | succ f => simp [natHexDigitsAux, h0]

theorem natHexRepr_ne_nil (n : Nat) : natHexRepr n ≠ [] := by
  unfold natHexRepr
  by_cases h0 : n = 0
  · simp [h0]
  · simp only [if_neg h0, natHexDigits]
    exact natHexDigitsAux_ne_nil n n h0 (Nat.pos_of_ne_zero h0)

theorem isHexChar_isWordChar (c : Char) (hc : isHexChar c = true) :
    isWordChar c = true := by
  simp only [isHexChar, hexCharVal?] at hc
  simp only [isWordChar, Bool.or_eq_true, Bool.and_eq_true,
    decide_eq_true_eq, beq_iff_eq]
  split_ifs at hc with h1 h2 h3 <;> first | omega | simp at hc

/-! ## Lemmas about `padComponent` and `padSignature` -/

theorem hexExtractList?_cons (rest : List Char) (h1 : rest ≠ [])
    (h2 : rest.all isWordChar = true) :
    hexExtractList? ('0' :: 'x' :: rest) = some rest := by
  simp [hexExtractList?, h1, h2]

theorem hexExtract_props {cs h : List Char}
    (hc : hexExtractList? cs = some h) :
    h ≠ [] ∧ h.all isWordChar = true := by
  rcases cs with _ | ⟨c0, _ | ⟨c1, rest⟩⟩
  · simp [hexExtractList?] at hc
  · simp [hexExtractList?] at hc
  · simp only [hexExtractList?] at hc
    split_ifs at hc with hcond
    obtain rfl : rest = h := Option.some.inj hc
    simp only [Bool.and_eq_true, Bool.or_eq_true, beq_iff_eq,
      Bool.not_eq_true', List.isEmpty_eq_false] at hcond
    exact ⟨hcond.1.2, hcond.2⟩

theorem padComponent_of_extract_64 {str : String} {h : List Char}
    (he : hexExtractList? str.data = some h) (hl : h.length = 64) :
    padComponent str = str := by
  unfold padComponent
  rw [he]
  simp [hl]

theorem padComponent_of_extract_ne {str : String} {h : List Char}
    (he : hexExtractList? str.data = some h) (hl : h.length ≠ 64) :
    padComponent str = String.mk ('0' :: 'x' :: padStartZeros h 64) := by
  unfold padComponent
  rw [he]
  simp [hl]

theorem padComponent_of_extract_none {str : String}
    (he : hexExtractList? str.data = none) : padComponent str = str := by
  unfold padComponent
  rw [he]

theorem padComponent_idem (str : String) :
    padComponent (padComponent str) = padComponent str := by
  rcases he : hexExtractList? str.data with _ | h
  · rw [padComponent_of_extract_none he, padComponent_of_extract_none he]
  · obtain ⟨hne, hword⟩ := hexExtract_props he
    by_cases hl : h.length = 64
    · rw [padComponent_of_extract_64 he hl, padComponent_of_extract_64 he hl]
    · rw [padComponent_of_extract_ne he hl]
      have hword' : (padStartZeros h 64).all isWordChar = true :=
        padStartZeros_all (by decide) h 64 hword
      have hne' : padStartZeros h 64 ≠ [] := padStartZeros_ne_nil h 64 hne
      have he2 : hexExtractList?
            (String.mk ('0' :: 'x' :: padStartZeros h 64)).data
          = some (padStartZeros h 64) :=
        hexExtractList?_cons _ hne' hword'
      by_cases hl2 : (padStartZeros h 64).length = 64
      · exact padComponent_of_extract_64 he2 hl2
      · have hgt : 64 < h.length := by
          rcases Nat.lt_or_ge h.length 64 with hlt | hge
          · exact absurd (padStartZeros_length h 64 (le_of_lt hlt)) hl2
          · omega
        have hps : padStartZeros h 64 = h := by
          unfold padStartZeros
          have h0 : 64 - h.length = 0 := by omega
          simp [h0]
        rw [padComponent_of_extract_ne he2 hl2]
        simp only [hps]

theorem padComponent_toHexStr_data (n : Nat) :
    (padComponent (toHexStr n)).data
      = '0' :: 'x' :: padStartZeros (natHexRepr n) 64 := by
  have hword : (natHexRepr n).all isWordChar = true := by
    have hhex := natHexRepr_all_hex n
    simp only [List.all_eq_true] at hhex ⊢
    exact fun c hc => isHexChar_isWordChar c (hhex c hc)
  have he : hexExtractList? (toHexStr n).data = some (natHexRepr n) :=
    hexExtractList?_cons _ (natHexRepr_ne_nil n) hword
  by_cases hl : (natHexRepr n).length = 64
  · rw [padComponent_of_extract_64 he hl]
    show ('0' :: 'x' :: natHexRepr n) = _
    simp [padStartZeros, hl]
  · rw [padComponent_of_extract_ne he hl]

/-! ## Inversion lemmas for the codec -/

theorem fromCompact_ok_elim {hex : String} {r s : Nat}
    (h : fromCompact hex = Except.ok (r, s)) :
    hex.data.length = 128 ∧ hex.data.all isHexChar = true ∧
    r = hexListVal (hex.data.take 64) ∧ s = hexListVal (hex.data.drop 64) ∧
    0 < r ∧ r < secp256k1N ∧ 0 < s ∧ s < secp256k1N := by
  simp only [fromCompact] at h
  split_ifs at h with h1 h2 h3 h4
  simp only [Except.ok.injEq, Prod.mk.injEq] at h
  obtain ⟨hr, hs⟩ := h
  subst hr
  subst hs
  push_neg at h1 h3 h4
  exact ⟨h1, h2, rfl, rfl, Nat.pos_of_ne_zero h3.1, h3.2,
    Nat.pos_of_ne_zero h4.1, h4.2⟩

theorem splitSignature_ok_elim {inp : String} {sig : SignatureExtended}
    (h : splitSignature inp = Except.ok sig) :
    ∃ r s v, fromCompact (jsSlice inp 2 130) = Except.ok (r, s) ∧
      hexToNumberBody? (inp.data.drop 130) = some v ∧
      sig = padSignature
        { v := v, r := toHexStr r, s := toHexStr s,
          recoveryParam := 1 - v % 2 } := by
  unfold splitSignature at h
  rcases hfc : fromCompact (jsSlice inp 2 130) with e | ⟨r, s⟩
  · rw [hfc] at h; simp at h
  · rw [hfc] at h
    rcases hv : hexToNumberBody? (jsSliceFrom inp 130).data with _ | v
    · rw [hv] at h; simp at h
    · rw [hv] at h
      simp only [Except.ok.injEq] at h
      exact ⟨r, s, v, rfl, hv, h.symm⟩

theorem secp256k1N_lt : secp256k1N < 16 ^ 64 := by decide

theorem padComponent_toHexStr_spec (n : Nat) (hn : n < 16 ^ 64) :
    (padComponent (toHexStr n)).data.take 2 = ['0', 'x'] ∧
    ((padComponent (toHexStr n)).data.drop 2).length = 64 ∧
    ((padComponent (toHexStr n)).data.drop 2).all isHexChar = true ∧
    hexListVal ((padComponent (toHexStr n)).data.drop 2) = n := by
  rw [padComponent_toHexStr_data]
  have hlen : (natHexRepr n).length ≤ 64 := natHexRepr_length n 64 hn (by norm_num)
  refine ⟨rfl, padStartZeros_length _ _ hlen,
    padStartZeros_all (by decide) _ _ (natHexRepr_all_hex n), ?_⟩
  show hexListVal (padStartZeros (natHexRepr n) 64) = n
  rw [hexListVal_padStartZeros, natHexRepr_val]

/-- C1: whenever `splitSignature` succeeds on a raw signature — in
particular on every valid 65-byte raw signature whose `r` or `s` has
leading zero bytes (and so a short minimal hex form) — the returned `r`
and `s` are `0x`-prefixed strings of exactly 64 hex characters whose
value equals the corresponding 32-byte component of the input, i.e. they
are left-padded with zeros to 64 hex characters. -/
theorem splitSignature_pads_components (inp : String) (sig : SignatureExtended)
    (h : splitSignature inp = Except.ok sig) :
    sig.r.data.take 2 = ['0', 'x'] ∧ (sig.r.data.drop 2).length = 64 ∧
    (sig.r.data.drop 2).all isHexChar = true ∧
    hexListVal (sig.r.data.drop 2) = hexListVal ((inp.data.drop 2).take 64) ∧
    sig.s.data.take 2 = ['0', 'x'] ∧ (sig.s.data.drop 2).length = 64 ∧
    (sig.s.data.drop 2).all isHexChar = true ∧
    hexListVal (sig.s.data.drop 2)
      = hexListVal (((inp.data.drop 2).take 128).drop 64) := by
  obtain ⟨r, s, v, hfc, hv, hsig⟩ := splitSignature_ok_elim h
  obtain ⟨hlen, hhex, hr, hs, hr0, hrn, hs0, hsn⟩ := fromCompact_ok_elim hfc
  have hjs : (jsSlice inp 2 130).data = (inp.data.drop 2).take 128 := rfl
  rw [hjs] at hr hs
  have hrlt : r < 16 ^ 64 := lt_trans hrn secp256k1N_lt
  have hslt : s < 16 ^ 64 := lt_trans hsn secp256k1N_lt
  have hrfield : sig.r = padComponent (toHexStr r) := by rw [hsig]; rfl
  have hsfield : sig.s = padComponent (toHexStr s) := by rw [hsig]; rfl
  obtain ⟨hr1, hr2, hr3, hr4⟩ := padComponent_toHexStr_spec r hrlt
  obtain ⟨hs1, hs2, hs3, hs4⟩ := padComponent_toHexStr_spec s hslt
  rw [hrfield, hsfield]
  refine ⟨hr1, hr2, hr3, ?_, hs1, hs2, hs3, ?_⟩
  · rw [hr4, hr, List.take_take]
    norm_num
  · rw [hs4, hs]

/-- C1 witness: a signature with `r = s = 1` (63 leading zero hex digits
in each component) and `v = 27`. -/
theorem splitSignature_pads_components_witness :
    splitSignature sig65In = Except.ok sig65Out ∧
    (sig65Out.r.data.take 2 = ['0', 'x'] ∧
     (sig65Out.r.data.drop 2).length = 64 ∧
     (sig65Out.r.data.drop 2).all isHexChar = true ∧
     hexListVal (sig65Out.r.data.drop 2)
       = hexListVal ((sig65In.data.drop 2).take 64) ∧
     sig65Out.s.data.take 2 = ['0', 'x'] ∧
     (sig65Out.s.data.drop 2).length = 64 ∧
     (sig65Out.s.data.drop 2).all isHexChar = true ∧
     hexListVal (sig65Out.s.data.drop 2)
       = hexListVal (((sig65In.data.drop 2).take 128).drop 64)) :=
  ⟨by decide, splitSignature_pads_components sig65In sig65Out (by decide)⟩

/-- C7: for every raw signature accepted by `splitSignature` whose final
byte parses to `v ∈ {27, 28, 0, 1}`, the returned `recoveryParam` equals
`1 - (v mod 2)`. -/
theorem splitSignature_recoveryParam (inp : String) (sig : SignatureExtended)
    (v : Nat) (h : splitSignature inp = Except.ok sig)
    (hv : hexToNumberBody? (inp.data.drop 130) = some v)
    (_hval : v = 27 ∨ v = 28 ∨ v = 0 ∨ v = 1) :
    sig.recoveryParam = 1 - v % 2 := by
  obtain ⟨r, s, v', hfc, hv', hsig⟩ := splitSignature_ok_elim h
  rw [hv] at hv'
  obtain rfl : v = v' := Option.some.inj hv'
  rw [hsig]
  rfl

/-- C7 witness: `v = 0x1b = 27` gives `recoveryParam = 0 = 1 - 27 % 2`. -/
theorem splitSignature_recoveryParam_witness :
    sig65Out.recoveryParam = 1 - 27 % 2 :=
  splitSignature_recoveryParam sig65In sig65Out 27 (by decide) (by decide)
    (Or.inl rfl)

/-- C9: padding is idempotent. If both `r` and `s` already match
`0x` + exactly 64 word characters, `padSignature` returns the signature
unchanged; and for every signature whatsoever,
`padSignature (padSignature sig) = padSignature sig`, so re-running the
normalization on its own output yields an identical result. -/
theorem padSignature_idempotent (sig : SignatureExtended) :
    ((∃ h1, hexExtractList? sig.r.data = some h1 ∧ h1.length = 64) →
     (∃ h2, hexExtractList? sig.s.data = some h2 ∧ h2.length = 64) →
     padSignature sig = sig) ∧
    padSignature (padSignature sig) = padSignature sig := by
  constructor
  · rintro ⟨h1, he1, hl1⟩ ⟨h2, he2, hl2⟩
    unfold padSignature
    rw [padComponent_of_extract_64 he1 hl1, padComponent_of_extract_64 he2 hl2]
  · simp [padSignature, padComponent_idem]

/-- C9 witness: a concrete signature whose `r` and `s` are already 64 hex
characters is returned unchanged, and double application equals single
application. -/
theorem padSignature_idempotent_witness :
    padSignature paddedSig0 = paddedSig0 ∧
    padSignature (padSignature paddedSig0) = padSignature paddedSig0 :=
  ⟨(padSignature_idempotent paddedSig0).1
      ⟨paddedSig0.r.data.drop 2, by decide, by decide⟩
      ⟨paddedSig0.s.data.drop 2, by decide, by decide⟩,
    (padSignature_idempotent paddedSig0).2⟩

theorem hexToNumberBody?_some_elim {body : List Char} {v : Nat}
    (h : hexToNumberBody? body = some v) :
    body ≠ [] ∧ body.all isHexChar = true ∧ v = hexListVal body := by
  unfold hexToNumberBody? at h
  split_ifs at h with h1 h2
  exact ⟨h1, h2, (Option.some.inj h).symm⟩

theorem take128_take64 (l : List Char) : (l.take 128).take 64 = l.take 64 := by
  rw [List.take_take]
  norm_num

theorem splitSignature_isOk_elim (inp : String)
    (h : (splitSignature inp).isOk = true) : acceptsSplitSpec inp = true := by
  rcases hsp : splitSignature inp with e | sig
  · rw [hsp] at h
    exact Bool.noConfusion h
  · obtain ⟨r, s, v, hfc, hv, _⟩ := splitSignature_ok_elim hsp
    obtain ⟨hlen, hhex, hr, hs, hr0, hrn, hs0, hsn⟩ := fromCompact_ok_elim hfc
    obtain ⟨hne, hvhex, _⟩ := hexToNumberBody?_some_elim hv
    have hjs : (jsSlice inp 2 130).data = (inp.data.drop 2).take 128 := rfl
    rw [hjs] at hlen hhex hr hs
    rw [take128_take64] at hr
    have hlen131 : 131 ≤ inp.data.length := by
      rw [List.length_take, List.length_drop] at hlen
      have hd : ¬ inp.data.length ≤ 130 := fun hle =>
        hne (List.drop_eq_nil_iff.mpr hle)
      omega
    simp only [acceptsSplitSpec, Bool.and_eq_true, decide_eq_true_eq]
    subst hr
    subst hs
    exact ⟨⟨⟨⟨⟨⟨hlen131, hhex⟩, hr0⟩, hrn⟩, hs0⟩, hsn⟩, hvhex⟩

theorem splitSignature_isOk_intro (inp : String)
    (h : acceptsSplitSpec inp = true) : (splitSignature inp).isOk = true := by
  simp only [acceptsSplitSpec, Bool.and_eq_true, decide_eq_true_eq] at h
  obtain ⟨⟨⟨⟨⟨⟨hlen131, hhex⟩, hr0⟩, hrn⟩, hs0⟩, hsn⟩, htl⟩ := h
  have hjs : (jsSlice inp 2 130).data = (inp.data.drop 2).take 128 := rfl
  have hlen : ((inp.data.drop 2).take 128).length = 128 := by
    rw [List.length_take, List.length_drop]
    omega
  have htt : ((inp.data.drop 2).take 128).take 64 = (inp.data.drop 2).take 64 :=
    take128_take64 _
  have hfc : fromCompact (jsSlice inp 2 130)
      = Except.ok (hexListVal ((inp.data.drop 2).take 64),
                   hexListVal (((inp.data.drop 2).take 128).drop 64)) := by
    simp only [fromCompact, hjs, htt]
    rw [if_neg (by simp [hlen]), if_neg (by simp [hhex]),
      if_neg (by push_neg; exact ⟨by omega, hrn⟩),
      if_neg (by push_neg; exact ⟨by omega, hsn⟩)]
  have hvsome : hexToNumberBody? (inp.data.drop 130)
      = some (hexListVal (inp.data.drop 130)) := by
    unfold hexToNumberBody?
    rw [if_neg (fun hnil => by
        have := List.drop_eq_nil_iff.mp hnil
        omega),
      if_pos htl]
  have hjs2 : (jsSliceFrom inp 130).data = inp.data.drop 130 := rfl
  simp only [splitSignature, hfc, hjs2, hvsome, Except.isOk]
  rfl

/-- C3 counterexample: a 66-byte input (134 characters) — whose length
differs from 65 bytes — on which `splitSignature` returns a value instead
of raising a decoding error: the two extra bytes are folded into `v`. -/
theorem splitSignature_long_input_ok :
    sig66In.data.length = 134 ∧ (splitSignature sig66In).isOk = true :=
  ⟨by decide, by decide⟩

/-- C3 (amended): `splitSignature` raises a decoding error on every
input of at most 130 characters (64 bytes of payload or fewer); on an
input of exactly 65 bytes (132 characters) it raises a decoding error if
and only if hex parsing or the `r`/`s` curve-range validation fails
(`acceptsSplitSpec`, bit-exact on this length since the two-character
tail cannot overflow the JS `Number` range); and inputs longer than
65 bytes are not uniformly rejected — the counterexample exhibits an
accepted 66-byte input whose extra bytes are folded into `v`. -/
theorem splitSignature_error_characterization :
    (∀ inp : String, inp.data.length ≤ 130 →
      (splitSignature inp).isOk = false) ∧
    (∀ inp : String, inp.data.length = 132 →
      (splitSignature inp).isOk = acceptsSplitSpec inp) := by
  constructor
  · intro inp hlen
    cases hA : (splitSignature inp).isOk with
    | false => rfl
    | true =>
      have hacc := splitSignature_isOk_elim inp hA
      simp only [acceptsSplitSpec, Bool.and_eq_true, decide_eq_true_eq] at hacc
      omega
  · intro inp _
    cases hA : (splitSignature inp).isOk with
    | true => exact (splitSignature_isOk_elim inp hA).symm
    | false =>
      cases hB : acceptsSplitSpec inp with
      | false => rfl
      | true =>
        rw [splitSignature_isOk_intro inp hB] at hA
        exact absurd hA (by simp)

/-- C3 witness: a 2-byte input raises, and on the concrete 65-byte
signature the acceptance equivalence holds with both sides true. -/
theorem splitSignature_error_characterization_witness :
    (splitSignature shortSigIn).isOk = false ∧
    (splitSignature sig65In).isOk = acceptsSplitSpec sig65In :=
  ⟨splitSignature_error_characterization.1 shortSigIn (by decide),
   splitSignature_error_characterization.2 sig65In (by decide)⟩

/-! ## Lemmas about the polling loop -/

theorem pollFrom_noconf (statuses : Nat → String) :
    ∀ fuel a, (∀ i, i < fuel → isConfirmedStatus (statuses (a + i)) = false) →
    pollFrom statuses fuel a = ⟨false, a + fuel, pairTraceFrom a fuel⟩ := by
  intro fuel
  induction fuel with
  | zero => intro a _; simp [pollFrom, pairTraceFrom]
  | succ f ih =>
    intro a h
    have h0 : isConfirmedStatus (statuses a) = false := by
      have := h 0 (by omega)
      simpa using this
    have hrest : pollFrom statuses f (a + 1)
        = ⟨false, a + 1 + f, pairTraceFrom (a + 1) f⟩ := by
      refine ih (a + 1) (fun i hi => ?_)
      have := h (i + 1) (by omega)
      rwa [show a + (i + 1) = a + 1 + i by omega] at this
    simp only [pollFrom, h0, Bool.false_eq_true, if_false, hrest]
    show PollResult.mk false (a + 1 + f)
        (PollEvent.delay 2000 :: PollEvent.fetch a :: pairTraceFrom (a + 1) f)
      = PollResult.mk false (a + (f + 1)) (pairTraceFrom a (f + 1))
    rw [show a + 1 + f = a + (f + 1) by omega]
    rfl

theorem pollFrom_conf (statuses : Nat → String) :
    ∀ k fuel a, k < fuel → isConfirmedStatus (statuses (a + k)) = true →
    (∀ i, i < k → isConfirmedStatus (statuses (a + i)) = false) →
    pollFrom statuses fuel a = ⟨true, a + k + 1, pairTraceFrom a (k + 1)⟩ := by
  intro k
  induction k with
  | zero =>
    intro fuel a hk hc _
    cases fuel with
    | zero => omega
    | succ f =>
      have h0 : isConfirmedStatus (statuses a) = true := by simpa using hc
      simp [pollFrom, h0, pairTraceFrom]
  | succ kk ih =>
    intro fuel a hk hc hmin
    cases fuel with
    | zero => omega
    | succ f =>
      have h0 : isConfirmedStatus (statuses a) = false := by
        have := hmin 0 (by omega)
        simpa using this
      have hrest : pollFrom statuses f (a + 1)
          = ⟨true, a + 1 + kk + 1, pairTraceFrom (a + 1) (kk + 1)⟩ := by
        refine ih f (a + 1) (by omega) ?_ (fun i hi => ?_)
        · rwa [show a + 1 + kk = a + (kk + 1) by omega]
        · have := hmin (i + 1) (by omega)
          rwa [show a + (i + 1) = a + 1 + i by omega] at this
      simp only [pollFrom, h0, Bool.false_eq_true, if_false, hrest]
      show PollResult.mk true (a + 1 + kk + 1)
          (PollEvent.delay 2000 :: PollEvent.fetch a
            :: pairTraceFrom (a + 1) (kk + 1))
        = PollResult.mk true (a + (kk + 1) + 1) (pairTraceFrom a (kk + 1 + 1))
      rw [show a + 1 + kk + 1 = a + (kk + 1) + 1 by omega]
      rfl

theorem pollFrom_shape (statuses : Nat → String) :
    ∀ fuel a,
    (pollFrom statuses fuel a).events
      = pairTraceFrom a ((pollFrom statuses fuel a).attempts - a) ∧
    a ≤ (pollFrom statuses fuel a).attempts ∧
    (pollFrom statuses fuel a).attempts - a ≤ fuel := by
  intro fuel
  induction fuel with
  | zero => intro a; simp [pollFrom, pairTraceFrom]
  | succ f ih =>
    intro a
    cases h0 : isConfirmedStatus (statuses a) with
    | true =>
      simp only [pollFrom, h0, if_true]
      refine ⟨?_, by omega, by omega⟩
      rw [show a + 1 - a = 1 by omega]
      rfl
    | false =>
      obtain ⟨ihev, ihle, ihfuel⟩ := ih (a + 1)
      simp only [pollFrom, h0, Bool.false_eq_true, if_false]
      refine ⟨?_, by omega, by omega⟩
      show PollEvent.delay 2000 :: PollEvent.fetch a
          :: (pollFrom statuses f (a + 1)).events
        = pairTraceFrom a ((pollFrom statuses f (a + 1)).attempts - a)
      rw [show (pollFrom statuses f (a + 1)).attempts - a
          = ((pollFrom statuses f (a + 1)).attempts - (a + 1)) + 1 by omega]
      rw [ihev]
      rfl

theorem pairTraceFrom_countP_fetch (m : Nat) :
    ∀ a, (pairTraceFrom a m).countP isFetchEv = m := by
  induction m with
  | zero => intro a; rfl
  | succ mm ih =>
    intro a
    simp [pairTraceFrom, List.countP_cons, isFetchEv, isDelayEv, ih (a + 1)]

theorem pairTraceFrom_countP_delay (m : Nat) :
    ∀ a, (pairTraceFrom a m).countP isDelayEv = m := by
  induction m with
  | zero => intro a; rfl
  | succ mm ih =>
    intro a
    simp [pairTraceFrom, List.countP_cons, isFetchEv, isDelayEv, ih (a + 1)]

theorem pairTraceFrom_mem (m : Nat) :
    ∀ a e, e ∈ pairTraceFrom a m →
    e = PollEvent.delay 2000 ∨ ∃ i, e = PollEvent.fetch i := by
  induction m with
  | zero => intro a e he; simp [pairTraceFrom] at he
  | succ mm ih =>
    intro a e he
    simp only [pairTraceFrom, List.mem_cons] at he
    rcases he with rfl | rfl | he
    · exact Or.inl rfl
    · exact Or.inr ⟨a, rfl⟩
    · exact ih (a + 1) e he

theorem pairTraceFrom_fetch_preceded (m : Nat) :
    ∀ a l1 i l2, pairTraceFrom a m = l1 ++ PollEvent.fetch i :: l2 →
    l1.getLast? = some (PollEvent.delay 2000) := by
  induction m with
  | zero =>
    intro a l1 i l2 h
    exact absurd h (by cases l1 <;> simp [pairTraceFrom])
  | succ mm ih =>
    intro a l1 i l2 h
    simp only [pairTraceFrom] at h
    cases l1 with
    | nil => simp at h
    | cons x l1' =>
      simp only [List.cons_append, List.cons.injEq] at h
      obtain ⟨rfl, h⟩ := h
      cases l1' with
      | nil => rfl
      | cons y l1'' =>
        simp only [List.cons_append, List.cons.injEq] at h
        obtain ⟨rfl, h⟩ := h
        have htl := ih (a + 1) l1'' i l2 h
        cases l1'' with
        | nil => simp at htl
        | cons z l3 =>
          rw [List.getLast?_cons_cons, List.getLast?_cons_cons]
          exact htl

/-- C5: the polling loop performs at most 60 fetches at a fixed 2000 ms
interval; if attempt `k < 60` is the first whose status compares equal to
"confirmed" case-insensitively, the loop exits right after that fetch
(`attempts = k + 1`, trace `pairTraceFrom 0 (k+1)` with exactly `k + 1`
fetches, no further ones); and if no status among the first 60 is
confirmed, it returns the value `⟨false, 60, _⟩` — a non-throwing
unconfirmed outcome, not an error. -/
theorem pollLoop_spec (statuses : Nat → String) :
    (pollLoop statuses).events.countP isFetchEv ≤ 60 ∧
    (∀ e ∈ (pollLoop statuses).events,
      isDelayEv e = true → e = PollEvent.delay 2000) ∧
    (∀ k, k < 60 → isConfirmedStatus (statuses k) = true →
      (∀ i, i < k → isConfirmedStatus (statuses i) = false) →
      pollLoop statuses = ⟨true, k + 1, pairTraceFrom 0 (k + 1)⟩ ∧
      (pairTraceFrom 0 (k + 1)).countP isFetchEv = k + 1) ∧
    ((∀ i, i < 60 → isConfirmedStatus (statuses i) = false) →
      pollLoop statuses = ⟨false, 60, pairTraceFrom 0 60⟩) := by
  obtain ⟨hev, hle, hfuel⟩ := pollFrom_shape statuses 60 0
  have hloop : pollLoop statuses = pollFrom statuses 60 0 := rfl
  refine ⟨?_, ?_, ?_, ?_⟩
  · rw [hloop, hev, pairTraceFrom_countP_fetch]
    omega
  · intro e he hd
    rw [hloop, hev] at he
    rcases pairTraceFrom_mem _ _ e he with h | ⟨i, rfl⟩
    · exact h
    · exact absurd hd (by simp [isDelayEv])
  · intro k hk hc hmin
    have hcall := pollFrom_conf statuses k 60 0 hk (by simpa using hc)
      (fun i hi => by simpa using hmin i hi)
    constructor
    · rw [hloop, hcall, Nat.zero_add]
    · exact pairTraceFrom_countP_fetch (k + 1) 0
  · intro h
    have hcall := pollFrom_noconf statuses 60 0
      (fun i hi => by simpa using h i hi)
    rw [hloop, hcall]

/-- C5 witness: with statuses pending, pending, "Confirmed", ..., the
loop stops after the third fetch with `attempts = 3`. -/
theorem pollLoop_spec_witness :
    pollLoop statusesConfAt2 = ⟨true, 3, pairTraceFrom 0 3⟩ ∧
    (pairTraceFrom 0 3).countP isFetchEv = 3 :=
  (pollLoop_spec statusesConfAt2).2.2.1 2 (by norm_num) (by decide) (by decide)

/-- C10: the loop's trace is exactly `attempts` iterations of
delay-then-fetch starting from the very first iteration (so every fetch,
including the first, is immediately preceded by a full 2000 ms delay),
`attempts` never exceeds 60, and a run that never observes a confirmed
status performs exactly 60 delays and 60 fetches. -/
theorem pollLoop_delay_before_every_fetch (statuses : Nat → String) :
    (pollLoop statuses).events
      = pairTraceFrom 0 ((pollLoop statuses).attempts) ∧
    (pollLoop statuses).attempts ≤ 60 ∧
    (∀ l1 i l2, (pollLoop statuses).events = l1 ++ PollEvent.fetch i :: l2 →
      l1.getLast? = some (PollEvent.delay 2000)) ∧
    ((∀ i, i < 60 → isConfirmedStatus (statuses i) = false) →
      (pollLoop statuses).events.countP isDelayEv = 60 ∧
      (pollLoop statuses).events.countP isFetchEv = 60 ∧
      (pollLoop statuses).attempts = 60) := by
  obtain ⟨hev, hle, hfuel⟩ := pollFrom_shape statuses 60 0
  have hloop : pollLoop statuses = pollFrom statuses 60 0 := rfl
  have hsub : (pollFrom statuses 60 0).attempts - 0
      = (pollFrom statuses 60 0).attempts := by omega
  rw [hsub] at hev
  refine ⟨by rw [hloop, hev], by rw [hloop]; omega, ?_, ?_⟩
  · intro l1 i l2 heq
    rw [hloop, hev] at heq
    exact pairTraceFrom_fetch_preceded _ 0 l1 i l2 heq
  · intro h
    have hcall := pollFrom_noconf statuses 60 0
      (fun i hi => by simpa using h i hi)
    rw [hloop, hcall]
    exact ⟨pairTraceFrom_countP_delay 60 0, pairTraceFrom_countP_fetch 60 0, rfl⟩

/-- C10 witness: a run that never sees "confirmed" performs exactly 60
delays and 60 fetches. -/
theorem pollLoop_delay_before_every_fetch_witness :
    (pollLoop statusesNever).events.countP isDelayEv = 60 ∧
    (pollLoop statusesNever).events.countP isFetchEv = 60 ∧
    (pollLoop statusesNever).attempts = 60 :=
  (pollLoop_delay_before_every_fetch statusesNever).2.2.2 (by decide)

/-! ## Lemmas about the orchestration flow -/

theorem liftPoll_not_approve_sign (p : PollEvent) :
    isApproveEv (liftPoll p) = false ∧ isSignEv (liftPoll p) = false := by
  cases p <;> simp [liftPoll, isApproveEv, isSignEv]

theorem step4_pos {q : GaslessQuoteResult} {al : AllowanceIssue} {amt : Nat}
    (hal : q.issues.bind QuoteIssues.allowance = some al)
    (hap : q.approval = none)
    (hamt : jsBigIntDec? q.sell_quantity = some amt) :
    step4 q = Except.ok
      [RunEvent.sendApproveUserOp SELL_TOKEN al.spender amt,
       RunEvent.waitForReceipt] := by
  unfold step4
  rw [hal, hap, hamt]

theorem step4_no_allowance {q : GaslessQuoteResult}
    (hal : q.issues.bind QuoteIssues.allowance = none) :
    step4 q = Except.ok [] := by
  unfold step4
  rw [hal]

theorem step4_with_approval {q : GaslessQuoteResult} {ap : Eip712Payload}
    (hap : q.approval = some ap) : step4 q = Except.ok [] := by
  unfold step4
  rw [hap]
  cases hal : q.issues.bind QuoteIssues.allowance with
  | none => rfl
  | some al => rfl

theorem runFromQuote_shape (q : GaslessQuoteResult) (env : RunEnv)
    {ev4 : List RunEvent} (h4 : step4 q = Except.ok ev4) :
    ∃ tail, (runFromQuote q env).1
        = ev4 ++ step5 q
          ++ RunEvent.signTypedData SignerId.smartAccount q.trade :: tail
      ∧ ∀ e ∈ tail, isApproveEv e = false ∧ isSignEv e = false := by
  simp only [runFromQuote, h4]
  cases hsa : splitApprovalSig q env with
  | error e => exact ⟨[], rfl, by simp⟩
  | ok ad =>
    cases hss : splitSignature env.smartSig with
    | error e => exact ⟨[], rfl, by simp⟩
    | ok sg =>
      refine ⟨RunEvent.submitTrade ad.isSome
          :: (pollLoop env.statuses).events.map liftPoll, by simp, ?_⟩
      intro e he
      simp only [List.mem_cons, List.mem_map] at he
      rcases he with rfl | ⟨p, _, rfl⟩
      · exact ⟨rfl, rfl⟩
      · exact liftPoll_not_approve_sign p

theorem step4_ok_no_sign {q : GaslessQuoteResult} {ev4 : List RunEvent}
    (h4 : step4 q = Except.ok ev4) :
    ∀ e ∈ ev4, isApproveEv e = true ∨ isSignEv e = false := by
  intro e he
  cases hal : q.issues.bind QuoteIssues.allowance with
  | none =>
    rw [step4_no_allowance hal] at h4
    obtain rfl := Except.ok.inj h4
    simp at he
  | some al =>
    cases hap : q.approval with
    | some ap =>
      rw [step4_with_approval hap] at h4
      obtain rfl := Except.ok.inj h4
      simp at he
    | none =>
      cases hamt : jsBigIntDec? q.sell_quantity with
      | none => simp [step4, hal, hap, hamt] at h4
      | some amt =>
        rw [step4_pos hal hap hamt] at h4
        obtain rfl := Except.ok.inj h4
        simp only [List.mem_cons, List.not_mem_nil, or_false] at he
        rcases he with rfl | rfl
        · exact Or.inl rfl
        · exact Or.inr rfl

/-- C2 counterexample: a quote whose allowance issue reports an actual
allowance (2000000) that is not below the sell quantity (1000000) still
triggers an on-chain approval transaction, because the code only tests
presence of `issues.allowance`, never the numeric comparison. -/
theorem approval_tx_despite_ample_allowance :
    quoteAllowanceAmple.approval = none ∧
    quoteAllowanceAmple.issues.bind QuoteIssues.allowance
      = some { actual := "2000000", spender := "0xSPENDER" } ∧
    jsBigIntDec? "2000000" = some 2000000 ∧
    jsBigIntDec? quoteAllowanceAmple.sell_quantity = some 1000000 ∧
    ¬ 2000000 < 1000000 ∧
    RunEvent.sendApproveUserOp SELL_TOKEN "0xSPENDER" 1000000
      ∈ (runFromQuote quoteAllowanceAmple env0).1 :=
  ⟨rfl, rfl, by decide, by decide, by decide, by decide⟩

/-- C2 (amended): an on-chain approval transaction is executed if and
only if `quote.approval` is absent and `quote.issues.allowance` is
present — the actual allowance value is never compared with the sell
quantity. When `approval` is present, or no allowance issue is reported,
no approval transaction is executed. (The sell quantity is assumed to be
a numeric string, otherwise the run throws inside the branch before any
call.) -/
theorem approval_tx_iff (q : GaslessQuoteResult) (env : RunEnv) (amt : Nat)
    (hamt : jsBigIntDec? q.sell_quantity = some amt) :
    (∃ t sp am, RunEvent.sendApproveUserOp t sp am ∈ (runFromQuote q env).1)
      ↔ (q.issues.bind QuoteIssues.allowance).isSome = true
          ∧ q.approval = none := by
  cases hal : q.issues.bind QuoteIssues.allowance with
  | none =>
    obtain ⟨tail, hsh, htail⟩ := runFromQuote_shape q env (step4_no_allowance hal)
    constructor
    · rintro ⟨t, sp, am, hm⟩
      rw [hsh] at hm
      exfalso
      simp only [List.nil_append, List.mem_append, List.mem_cons] at hm
      rcases hm with hm | hm | hm
      · cases hap : q.approval with
        | none => simp [step5, hap] at hm
        | some ap => simp [step5, hap] at hm
      · exact RunEvent.noConfusion hm
      · have := (htail _ hm).1
        simp [isApproveEv] at this
    · rintro ⟨hs, _⟩
      simp at hs
  | some al =>
    cases hap : q.approval with
    | some ap =>
      obtain ⟨tail, hsh, htail⟩ :=
        runFromQuote_shape q env (step4_with_approval hap)
      constructor
      · rintro ⟨t, sp, am, hm⟩
        rw [hsh] at hm
        exfalso
        simp only [List.nil_append, List.mem_append, List.mem_cons] at hm
        rcases hm with hm | hm | hm
        · simp [step5, hap] at hm
        · exact RunEvent.noConfusion hm
        · have := (htail _ hm).1
          simp [isApproveEv] at this
      · rintro ⟨_, hnone⟩
        exact Option.noConfusion hnone
    | none =>
      have h4 := step4_pos hal hap hamt
      obtain ⟨tail, hsh, _⟩ := runFromQuote_shape q env h4
      constructor
      · intro _
        exact ⟨rfl, rfl⟩
      · intro _
        refine ⟨SELL_TOKEN, al.spender, amt, ?_⟩
        rw [hsh]
        simp

/-- C2 witness: on the C8 scenario quote the equivalence holds with both
sides true. -/
theorem approval_tx_iff_witness :
    jsBigIntDec? quoteNeedsApproval.sell_quantity = some 1000000 ∧
    ((∃ t sp am, RunEvent.sendApproveUserOp t sp am
        ∈ (runFromQuote quoteNeedsApproval env0).1)
      ↔ (quoteNeedsApproval.issues.bind QuoteIssues.allowance).isSome = true
          ∧ quoteNeedsApproval.approval = none) :=
  ⟨by decide, approval_tx_iff quoteNeedsApproval env0 1000000 (by decide)⟩

/-- C4 counterexample: a quote with `liquidity_available = false` is not
rejected: the run still executes the approval transaction, signs the
trade, submits it and polls to a successful outcome, with no distinct
no-liquidity failure raised before those steps. -/
theorem no_liquidity_run_proceeds :
    quoteNoLiquidity.liquidity_available = false ∧
    RunEvent.sendApproveUserOp SELL_TOKEN "0xSPENDER" 1000000
      ∈ (runFromQuote quoteNoLiquidity env0).1 ∧
    RunEvent.signTypedData SignerId.smartAccount quoteNoLiquidity.trade
      ∈ (runFromQuote quoteNoLiquidity env0).1 ∧
    RunEvent.submitTrade false ∈ (runFromQuote quoteNoLiquidity env0).1 ∧
    (runFromQuote quoteNoLiquidity env0).2 = Except.ok RunOutcome.confirmed :=
  ⟨rfl, by decide, by decide, by decide, by decide⟩

/-- C4 (amended): the flow never inspects `liquidity_available`: the
whole run — its events and its outcome — is identical whatever the value
of the flag, so a no-liquidity quote is processed like any other and no
distinct no-liquidity outcome exists. -/
theorem run_ignores_liquidity_flag (q : GaslessQuoteResult) (env : RunEnv)
    (b : Bool) :
    runFromQuote { q with liquidity_available := b } env
      = runFromQuote q env := by
  cases q
  rfl

/-- C6: the permit payload is only ever signed by the raw
externally-owned account and only when `quote.approval` is present; the
trade payload is only ever signed by the smart account; and when a permit
is present each of the two signing calls happens exactly once, each with
its one signer and its one payload, never swapped. -/
theorem signing_identities (q : GaslessQuoteResult) (env : RunEnv) :
    (∀ p, RunEvent.signTypedData SignerId.eoa p ∈ (runFromQuote q env).1 →
      q.approval = some p) ∧
    (∀ p, RunEvent.signTypedData SignerId.smartAccount p
        ∈ (runFromQuote q env).1 → p = q.trade) ∧
    (∀ ap, q.approval = some ap →
      (runFromQuote q env).1.count
          (RunEvent.signTypedData SignerId.eoa ap) = 1 ∧
      (runFromQuote q env).1.count
          (RunEvent.signTypedData SignerId.smartAccount q.trade) = 1) := by
  cases h4 : step4 q with
  | error e =>
    have hev : (runFromQuote q env).1 = [] := by
      simp [runFromQuote, h4]
    refine ⟨?_, ?_, ?_⟩
    · intro p hm
      rw [hev] at hm
      simp at hm
    · intro p hm
      rw [hev] at hm
      simp at hm
    · intro ap hap
      rw [step4_with_approval hap] at h4
      exact Except.noConfusion h4
  | ok ev4 =>
    obtain ⟨tail, hsh, htail⟩ := runFromQuote_shape q env h4
    have hev4 := step4_ok_no_sign h4
    refine ⟨?_, ?_, ?_⟩
    · intro p hm
      rw [hsh] at hm
      simp only [List.mem_append, List.mem_cons] at hm
      rcases hm with (hm | hm) | hm | hm
      · rcases hev4 _ hm with ha | hs
        · simp [isApproveEv] at ha
        · simp [isSignEv] at hs
      · cases hap : q.approval with
        | none => simp [step5, hap] at hm
        | some ap =>
          simp only [step5, hap, List.mem_singleton] at hm
          obtain ⟨-, rfl⟩ := RunEvent.signTypedData.inj hm
          rfl
      · exact SignerId.noConfusion (RunEvent.signTypedData.inj hm).1
      · have hns := (htail _ hm).2
        simp [isSignEv] at hns
    · intro p hm
      rw [hsh] at hm
      simp only [List.mem_append, List.mem_cons] at hm
      rcases hm with (hm | hm) | hm | hm
      · rcases hev4 _ hm with ha | hs
        · simp [isApproveEv] at ha
        · simp [isSignEv] at hs
      · cases hap : q.approval with
        | none => simp [step5, hap] at hm
        | some ap =>
          simp only [step5, hap, List.mem_singleton] at hm
          exact SignerId.noConfusion (RunEvent.signTypedData.inj hm).1
      · exact (RunEvent.signTypedData.inj hm).2
      · have hns := (htail _ hm).2
        simp [isSignEv] at hns
    · intro ap hap
      have hev4nil : ev4 = [] := by
        have hsw := step4_with_approval (q := q) hap
        rw [hsw] at h4
        exact (Except.ok.inj h4).symm
      subst hev4nil
      have hstep5 : step5 q = [RunEvent.signTypedData SignerId.eoa ap] := by
        simp [step5, hap]
      rw [hsh, hstep5]
      have hcnt : ∀ s p, tail.count (RunEvent.signTypedData s p) = 0 := by
        intro s p
        rw [List.count_eq_zero]
        intro hm
        have := (htail _ hm).2
        simp [isSignEv] at this
      constructor
      · simp [List.count_append, List.count_cons, hcnt]
      · simp [List.count_append, List.count_cons, hcnt]

/-- C6 witness: on a quote carrying a permit descriptor, the run signs
the permit with the raw account exactly once and the trade with the smart
account exactly once. -/
theorem signing_identities_witness :
    (runFromQuote quoteWithPermit env0).1.count
        (RunEvent.signTypedData SignerId.eoa approvalPayload0) = 1 ∧
    (runFromQuote quoteWithPermit env0).1.count
        (RunEvent.signTypedData SignerId.smartAccount quoteWithPermit.trade)
      = 1 :=
  (signing_identities quoteWithPermit env0).2.2 approvalPayload0 (by decide)

/-- C8: on the scenario quote (`approval: null`,
`issues.allowance = {actual: "0", spender: "0xSPENDER"}`,
`sell_quantity = "1000000"`), the run performs exactly one approval
transaction to the sell token contract with args `(0xSPENDER, 1000000)`,
requests no permit signature, and proceeds directly to trade signing with
the smart account, then submission and polling. -/
theorem run_scenario_approval_trace :
    (runFromQuote quoteNeedsApproval env0).1
      = [RunEvent.sendApproveUserOp SELL_TOKEN "0xSPENDER" 1000000,
         RunEvent.waitForReceipt,
         RunEvent.signTypedData SignerId.smartAccount quoteNeedsApproval.trade,
         RunEvent.submitTrade false,
         RunEvent.pollDelay 2000, RunEvent.pollFetch 0] := by decide

end GaslessSwap
